import Mathlib

/-!
Verification of the compaction-based input processor
(`CompactionBasedInputProcessor_impl.h`, namespace `private_lift`).

The C++ code is shallowly embedded: machine integers become `Nat` (for the
bit patterns of unsigned values) or `Int` (for signed values) with explicit
reduction modulo `2^w` at the points where the source relies on fixed-width
arithmetic; byte buffers become `List Nat` whose entries are the byte values.
-/

namespace PrivateLift

/-- Modelled from the spec: `extractByte(value, byteIndex)` (declared in the
header `CompactionBasedInputProcessor.h`, not part of the provided sources)
extracts the `byteIndex`-th little-endian byte of a machine word, i.e.
`(value >> (8 * byteIndex)) & 0xff`.  On a `Nat` bit pattern this is
`(v >>> (8*i)) % 256`. -/
def extractByte (v : Nat) (i : Nat) : Nat :=
  (v >>> (8 * i)) % 256

/-- The `k` little-endian bytes of a value: the source emits them with a
loop `for byte in 0..k: out[off+byte] = extractByte(v, byte)`. -/
def leBytes (k : Nat) (v : Nat) : List Nat :=
  (List.range k).map (extractByte v)

/-- Modelled from the spec: `reconstructFromBytes<T>(bytes)` (declared in the
header, not part of the provided sources) reassembles a `sizeof(T)`-byte
little-endian value from a byte pointer; cf. spec §4.3 "all little-endian". -/
def reconstructNat (bytes : List Nat) : Nat :=
  bytes.foldr (fun b acc => b + 256 * acc) 0

/-- C++ `bool` stored into an `unsigned char`: `true ↦ 1`, `false ↦ 0`. -/
def b2n (b : Bool) : Nat :=
  if b then 1 else 0

/-- Bit `i` of a byte value, as read by the deserializer's
`(byteShares[0] >> i) & 1` (assigned to a `bool` field). -/
def bitOf (v : Nat) (i : Nat) : Bool :=
  (v >>> i) % 2 == 1

/-- The two's-complement bit pattern (as a `Nat < 2^w`) of a signed value,
i.e. the result of storing `v` in a `w`-bit machine word. -/
def toUnsigned (w : Nat) (v : Int) : Nat :=
  (v % ((2 : Int) ^ w)).toNat

/-- Read a `w`-bit two's-complement bit pattern back as a signed integer,
as the C++ signed types `int32_t` / `int64_t` do. -/
def toSigned (w : Nat) (u : Nat) : Int :=
  if u < 2 ^ (w - 1) then (u : Int) else (u : Int) - 2 ^ w

/-- The C++ cast `(int32_t) v` applied to an `int64_t` value: keep the low
32 bits of the two's-complement pattern and reinterpret them as signed. -/
def wrapInt32 (v : Int) : Int :=
  toSigned 32 (toUnsigned 32 v)

/-- Byte `i` of a buffer (out-of-range reads default to `0`; the source
never reads out of range for well-formed buffers). -/
def byteAt (l : List Nat) (i : Nat) : Nat :=
  l.getD i 0

/-- Read of `reconstructFromBytes<uint32_t>(data + off)`: the 4 bytes at offset
`off`, little-endian. -/
def readU32 (l : List Nat) (off : Nat) : Nat :=
  reconstructNat ((l.drop off).take 4)

/-- Read of `reconstructFromBytes` for a 64-bit value: the 8 bytes at offset
`off`, little-endian. -/
def readU64 (l : List Nat) (off : Nat) : Nat :=
  reconstructNat ((l.drop off).take 8)

/-- Modelled from the spec: `PUBLISHER_ROW_BYTES` is declared in the header
(not in the provided sources); per spec §4.3 a publisher row is 1 packed
boolean byte plus 4 timestamp bytes. -/
def PUBLISHER_ROW_BYTES : Nat := 5

/-- Modelled from the spec: `PARTNER_ROW_SIZE_BYTES` is declared in the
header (not in the provided sources); per spec §4.3 a partner row header is
1 boolean byte plus 4 `cohortGroupId` bytes. -/
def PARTNER_ROW_SIZE_BYTES : Nat := 5

/-- Modelled from the spec: `PARTNER_CONVERSION_ROW_SIZE_BYTES` is declared
in the header (not in the provided sources); per spec §4.3 each conversion
block is `4 + 4 + 4 + 8 = 20` bytes. -/
def PARTNER_CONVERSION_ROW_SIZE_BYTES : Nat := 20

/-- Struct `PublisherRow` of `CompactionBasedInputProcessor`: four boolean flags
and a `uint32_t` opportunity timestamp (kept as its `Nat` bit pattern). -/
structure PublisherRow where
  breakdownId : Bool
  controlPopulation : Bool
  isValidOpportunityTimestamp : Bool
  testReach : Bool
  opportunityTimestamp : Nat
deriving DecidableEq, Repr

/-- Struct `PartnerRow`: the derived `anyValidPurchaseTimestamp` flag and the
`uint32_t` cohort group id. -/
structure PartnerRow where
  anyValidPurchaseTimestamp : Bool
  cohortGroupId : Nat
deriving DecidableEq, Repr

/-- Struct `PartnerConversionRow`: `uint32_t` purchase and threshold timestamps
(bit patterns), `int32_t` purchase value and `int64_t` squared value
(signed). -/
structure PartnerConversionRow where
  purchaseTimestamp : Nat
  thresholdTimestamp : Nat
  purchaseValue : Int
  purchaseValueSquared : Int
deriving DecidableEq, Repr

/-- Serialization of one publisher row (source lines 176–187): byte 0 packs
`breakdownId | controlPopulation << 1 | isValidOpportunityTimestamp << 2 |
testReach << 3`, bytes 1–4 are the little-endian opportunity timestamp. -/
def serializePublisherRow (r : PublisherRow) : List Nat :=
  (b2n r.breakdownId |||
      (b2n r.controlPopulation <<< 1) |||
      (b2n r.isValidOpportunityTimestamp <<< 2) |||
      (b2n r.testReach <<< 3)) ::
    leBytes 4 r.opportunityTimestamp

/-- Serialization of one conversion block (source lines 128–142): bytes
`5+20j..8+20j` purchase timestamp, `9+20j..12+20j` threshold timestamp,
`13+20j..16+20j` purchase value, `17+20j..24+20j` squared value, all
little-endian; signed fields are written as their two's-complement
patterns.  The per-offset writes tile the 20-byte block contiguously, so
the block is the concatenation of the four fields' bytes. -/
def serializeConversion (c : PartnerConversionRow) : List Nat :=
  leBytes 4 c.purchaseTimestamp ++
    leBytes 4 c.thresholdTimestamp ++
    leBytes 4 (toUnsigned 32 c.purchaseValue) ++
    leBytes 8 (toUnsigned 64 c.purchaseValueSquared)

/-- Serialization of one partner row (source lines 118–144): byte 0 is the
boolean flag, bytes 1–4 the little-endian cohort id, then one 20-byte block
per conversion at stride `PARTNER_CONVERSION_ROW_SIZE_BYTES`. -/
def serializePartnerRow (r : PartnerRow) (convs : List PartnerConversionRow) :
    List Nat :=
  b2n r.anyValidPurchaseTimestamp ::
    (leBytes 4 r.cohortGroupId ++ (convs.map serializeConversion).flatten)

/-- Publisher-side field extraction of `deserializeSecretSharedData`
(source lines 321–329): bits 0–3 of byte 0 and the `uint32_t` at offset 1. -/
def deserializePublisherRow (l : List Nat) : PublisherRow :=
  { breakdownId := bitOf (byteAt l 0) 0
    controlPopulation := bitOf (byteAt l 0) 1
    isValidOpportunityTimestamp := bitOf (byteAt l 0) 2
    testReach := bitOf (byteAt l 0) 3
    opportunityTimestamp := readU32 l 1 }

/-- Partner-side header extraction of `deserializeSecretSharedData`
(source lines 331–333): bit 0 of byte 0 and the `uint32_t` at offset 1. -/
def deserializePartnerRow (l : List Nat) : PartnerRow :=
  { anyValidPurchaseTimestamp := bitOf (byteAt l 0) 0
    cohortGroupId := readU32 l 1 }

/-- Conversion-slot extraction of `deserializeSecretSharedData` (source
lines 338–356): `uint32_t` at `5 + j*20`, `uint32_t` at `9 + j*20`,
`int32_t` at `13 + j*20`, `int64_t` at `17 + j*20`. -/
def deserializePartnerConversionRow (l : List Nat) (j : Nat) :
    PartnerConversionRow :=
  { purchaseTimestamp := readU32 l (5 + j * PARTNER_CONVERSION_ROW_SIZE_BYTES)
    thresholdTimestamp := readU32 l (9 + j * PARTNER_CONVERSION_ROW_SIZE_BYTES)
    purchaseValue :=
      toSigned 32 (readU32 l (13 + j * PARTNER_CONVERSION_ROW_SIZE_BYTES))
    purchaseValueSquared :=
      toSigned 64 (readU64 l (17 + j * PARTNER_CONVERSION_ROW_SIZE_BYTES)) }

/-- All `numConversionsPerUser` conversion slots of one partner buffer
(the `for j` loop of `deserializeSecretSharedData`). -/
def deserializePartnerConversions (l : List Nat) (numConv : Nat) :
    List PartnerConversionRow :=
  (List.range numConv).map (deserializePartnerConversionRow l)

theorem leBytes_length (k v : Nat) : (leBytes k v).length = k := by
  simp [leBytes]

theorem extractByte_succ (v : Nat) (i : Nat) :
    extractByte v (i + 1) = extractByte (v >>> 8) i := by
  simp only [extractByte, Nat.shiftRight_eq_div_pow]
  rw [pow_succ']
  rw [Nat.div_div_eq_div_mul]
  ring_nf

theorem reconstructNat_leBytes (k v : Nat) :
    reconstructNat (leBytes k v) = v % 2 ^ (8 * k) := by
  induction k generalizing v with
  | zero => simp [leBytes, reconstructNat, Nat.mod_one]
  | succ n ih =>
    have hrange : List.range (n + 1) = 0 :: (List.range n).map Nat.succ :=
      List.range_succ_eq_map n
    have hmap : leBytes (n + 1) v =
        extractByte v 0 :: (List.range n).map (fun i => extractByte v (i + 1)) := by
      simp only [leBytes, hrange, List.map_cons, List.map_map]
      rfl
    have hshift : (List.range n).map (fun i => extractByte v (i + 1)) =
        leBytes n (v >>> 8) := by
      simp only [leBytes]
      exact List.map_congr_left fun i _ => extractByte_succ v i
    rw [hmap, hshift]
    simp only [reconstructNat, List.foldr_cons]
    have := ih (v >>> 8)
    simp only [reconstructNat] at this
    rw [this]
    have hv8 : v >>> 8 = v / 256 := by
      rw [Nat.shiftRight_eq_div_pow]
    have h0 : extractByte v 0 = v % 256 := by
      simp [extractByte, Nat.shiftRight_eq_div_pow]
    rw [hv8, h0]
    have : 2 ^ (8 * (n + 1)) = 256 * 2 ^ (8 * n) := by
      rw [Nat.mul_succ, pow_add]; ring
    rw [this, Nat.mod_mul]

theorem readU32_leBytes (v : Nat) (rest : List Nat) :
    readU32 (leBytes 4 v ++ rest) 0 = v % 2 ^ 32 := by
  have h4 : (leBytes 4 v).length = 4 := leBytes_length 4 v
  have htake : ((leBytes 4 v ++ rest).drop 0).take 4 = leBytes 4 v := by
    simp only [List.drop_zero]
    exact List.take_left' h4
  simp only [readU32, htake]
  have := reconstructNat_leBytes 4 v
  simpa using this

theorem readU64_leBytes (v : Nat) (rest : List Nat) :
    readU64 (leBytes 8 v ++ rest) 0 = v % 2 ^ 64 := by
  have h8 : (leBytes 8 v).length = 8 := leBytes_length 8 v
  have htake : ((leBytes 8 v ++ rest).drop 0).take 8 = leBytes 8 v := by
    simp only [List.drop_zero]
    exact List.take_left' h8
  simp only [readU64, htake]
  have := reconstructNat_leBytes 8 v
  simpa using this

theorem toUnsigned_lt (w : Nat) (v : Int) : toUnsigned w v < 2 ^ w := by
  have hpos : (0 : Int) < 2 ^ w := by positivity
  have hlt : v % ((2 : Int) ^ w) < 2 ^ w := Int.emod_lt_of_pos v hpos
  have hnn : (0 : Int) ≤ v % ((2 : Int) ^ w) := Int.emod_nonneg v (ne_of_gt hpos)
  have hcast : ((toUnsigned w v : Nat) : Int) < ((2 ^ w : Nat) : Int) := by
    rw [toUnsigned, Int.toNat_of_nonneg hnn]
    push_cast
    exact hlt
  exact_mod_cast hcast

theorem toSigned_toUnsigned (w : Nat) (hw : 0 < w) (v : Int)
    (h1 : -(2 ^ (w - 1)) ≤ v) (h2 : v < 2 ^ (w - 1)) :
    toSigned w (toUnsigned w v) = v := by
  have hsplit : (2 : Int) ^ w = 2 ^ (w - 1) * 2 := by
    conv_lhs => rw [show w = (w - 1) + 1 by omega]
    rw [pow_succ]
  have hpos : (0 : Int) < 2 ^ w := by positivity
  rcases le_or_lt 0 v with hv | hv
  · have hvlt : v < 2 ^ w := by
      calc v < 2 ^ (w - 1) := h2
        _ ≤ 2 ^ w := by rw [hsplit]; nlinarith [pow_pos (show (0:Int) < 2 by norm_num) (w - 1)]
    have hmod : v % ((2 : Int) ^ w) = v := Int.emod_eq_of_lt hv hvlt
    have htn : ((toUnsigned w v : Nat) : Int) = v := by
      rw [toUnsigned, hmod, Int.toNat_of_nonneg hv]
    have hbranch : toUnsigned w v < 2 ^ (w - 1) := by
      have : ((toUnsigned w v : Nat) : Int) < ((2 ^ (w - 1) : Nat) : Int) := by
        rw [htn]; push_cast; exact h2
      exact_mod_cast this
    rw [toSigned, if_pos hbranch, htn]
  · have hmod : v % ((2 : Int) ^ w) = v + 2 ^ w := by
      have : (v + 2 ^ w * 1) % ((2 : Int) ^ w) = v % ((2 : Int) ^ w) :=
        Int.add_mul_emod_self_left v (2 ^ w) 1
      have heq : v % ((2 : Int) ^ w) = (v + 2 ^ w) % ((2 : Int) ^ w) := by
        rw [← this]; ring_nf
      rw [heq]
      apply Int.emod_eq_of_lt
      · have : -(2 ^ w : Int) ≤ v := by
          calc -(2 ^ w : Int) ≤ -(2 ^ (w - 1)) := by
                rw [hsplit]; nlinarith [pow_pos (show (0:Int) < 2 by norm_num) (w - 1)]
            _ ≤ v := h1
        linarith
      · linarith
    have hnn : (0 : Int) ≤ v + 2 ^ w := by
      have : -(2 ^ w : Int) ≤ v := by
        calc -(2 ^ w : Int) ≤ -(2 ^ (w - 1)) := by
              rw [hsplit]; nlinarith [pow_pos (show (0:Int) < 2 by norm_num) (w - 1)]
          _ ≤ v := h1
      linarith
    have htn : ((toUnsigned w v : Nat) : Int) = v + 2 ^ w := by
      rw [toUnsigned, hmod, Int.toNat_of_nonneg hnn]
    have hbranch : ¬ toUnsigned w v < 2 ^ (w - 1) := by
      intro hcon
      have : ((toUnsigned w v : Nat) : Int) < ((2 ^ (w - 1) : Nat) : Int) := by
        exact_mod_cast hcon
      rw [htn] at this
      push_cast at this
      rw [hsplit] at this
      nlinarith [pow_pos (show (0:Int) < 2 by norm_num) (w - 1)]
    rw [toSigned, if_neg hbranch, htn]
    ring

/-- The packed publisher flag byte and its bit-level readback: bit `j`
recovers flag `j`, and only the low four bits are used. -/
theorem packedFlags_spec (a b c d : Bool) :
    bitOf (b2n a ||| (b2n b <<< 1) ||| (b2n c <<< 2) ||| (b2n d <<< 3)) 0 = a ∧
    bitOf (b2n a ||| (b2n b <<< 1) ||| (b2n c <<< 2) ||| (b2n d <<< 3)) 1 = b ∧
    bitOf (b2n a ||| (b2n b <<< 1) ||| (b2n c <<< 2) ||| (b2n d <<< 3)) 2 = c ∧
    bitOf (b2n a ||| (b2n b <<< 1) ||| (b2n c <<< 2) ||| (b2n d <<< 3)) 3 = d ∧
    (b2n a ||| (b2n b <<< 1) ||| (b2n c <<< 2) ||| (b2n d <<< 3)) =
      b2n a + 2 * b2n b + 4 * b2n c + 8 * b2n d := by
  cases a <;> cases b <;> cases c <;> cases d <;> decide

/-- Well-formedness of a publisher row: the `uint32_t` field is a 32-bit
pattern (overflow-free representation of the machine word). -/
def PublisherRow.wf (r : PublisherRow) : Prop :=
  r.opportunityTimestamp < 2 ^ 32

instance (r : PublisherRow) : Decidable r.wf := by
  unfold PublisherRow.wf; infer_instance

/-- Well-formedness of a partner row header. -/
def PartnerRow.wf (r : PartnerRow) : Prop :=
  r.cohortGroupId < 2 ^ 32

instance (r : PartnerRow) : Decidable r.wf := by
  unfold PartnerRow.wf; infer_instance

/-- Well-formedness of a conversion row: unsigned fields are 32-bit
patterns, `purchaseValue` is in the `int32_t` range, `purchaseValueSquared`
in the `int64_t` range. -/
def PartnerConversionRow.wf (c : PartnerConversionRow) : Prop :=
  c.purchaseTimestamp < 2 ^ 32 ∧ c.thresholdTimestamp < 2 ^ 32 ∧
    -(2 ^ 31) ≤ c.purchaseValue ∧ c.purchaseValue < 2 ^ 31 ∧
    -(2 ^ 63) ≤ c.purchaseValueSquared ∧ c.purchaseValueSquared < 2 ^ 63

instance (c : PartnerConversionRow) : Decidable c.wf := by
  unfold PartnerConversionRow.wf; infer_instance

theorem deserialize_serialize_publisher (r : PublisherRow) (h : r.wf) :
    deserializePublisherRow (serializePublisherRow r) = r := by
  obtain ⟨b0, b1, b2, b3, ts⟩ := r
  obtain ⟨h0, h1, h2, h3, _⟩ := packedFlags_spec b0 b1 b2 b3
  have hts : readU32 (serializePublisherRow ⟨b0, b1, b2, b3, ts⟩) 1 = ts := by
    have hdrop : (serializePublisherRow ⟨b0, b1, b2, b3, ts⟩).drop 1 =
        leBytes 4 ts ++ [] := by
      simp [serializePublisherRow]
    have : readU32 (serializePublisherRow ⟨b0, b1, b2, b3, ts⟩) 1 =
        readU32 (leBytes 4 ts ++ []) 0 := by
      simp only [readU32, List.drop_zero, hdrop]
    rw [this, readU32_leBytes]
    exact Nat.mod_eq_of_lt h
  have hbyte : byteAt (serializePublisherRow ⟨b0, b1, b2, b3, ts⟩) 0 =
      (b2n b0 ||| (b2n b1 <<< 1) ||| (b2n b2 <<< 2) ||| (b2n b3 <<< 3)) := rfl
  simp only [deserializePublisherRow, hbyte, h0, h1, h2, h3, hts]

theorem serializeConversion_length (c : PartnerConversionRow) :
    (serializeConversion c).length = 20 := by
  simp [serializeConversion, leBytes_length]

theorem flatten_drop_blocks {α : Type} (s : Nat) :
    ∀ (j : Nat) (blocks : List (List α)), (∀ b ∈ blocks, b.length = s) →
      blocks.flatten.drop (s * j) = (blocks.drop j).flatten := by
  intro j
  induction j with
  | zero => intro blocks _; simp
  | succ n ih =>
    intro blocks hlen
    cases blocks with
    | nil => simp
    | cons b bs =>
      have hb : b.length = s := hlen b (by simp)
      have hrest : ∀ x ∈ bs, x.length = s := fun x hx => hlen x (by simp [hx])
      have harith : s * (n + 1) = b.length + s * n := by rw [hb]; ring
      rw [List.flatten_cons, harith, List.drop_append, ih bs hrest,
        List.drop_succ_cons]

theorem readU32_drop (l : List Nat) (off : Nat) :
    readU32 l off = readU32 (l.drop off) 0 := by
  simp [readU32]

theorem readU64_drop (l : List Nat) (off : Nat) :
    readU64 l off = readU64 (l.drop off) 0 := by
  simp [readU64]

theorem ser_partner_drop (r : PartnerRow) (convs : List PartnerConversionRow)
    (j : Nat) (hj : j < convs.length) :
    (serializePartnerRow r convs).drop (5 + j * 20) =
      serializeConversion (convs.get ⟨j, hj⟩) ++
        ((convs.drop (j + 1)).map serializeConversion).flatten := by
  have hser : serializePartnerRow r convs =
      (b2n r.anyValidPurchaseTimestamp :: leBytes 4 r.cohortGroupId) ++
        (convs.map serializeConversion).flatten := by
    simp [serializePartnerRow]
  have hlen5 : (b2n r.anyValidPurchaseTimestamp ::
      leBytes 4 r.cohortGroupId).length = 5 := by
    simp [leBytes_length]
  have hidx : 5 + j * 20 =
      (b2n r.anyValidPurchaseTimestamp :: leBytes 4 r.cohortGroupId).length
        + 20 * j := by
    rw [hlen5]; ring
  rw [hser, hidx, List.drop_append]
  have hblocks : ∀ b ∈ convs.map serializeConversion, b.length = 20 := by
    intro b hb
    obtain ⟨c, _, rfl⟩ := List.mem_map.mp hb
    exact serializeConversion_length c
  rw [flatten_drop_blocks 20 j (convs.map serializeConversion) hblocks,
    ← List.map_drop, List.drop_eq_getElem_cons hj, List.map_cons,
    List.flatten_cons]
  rfl

theorem ser_partner_reads (r : PartnerRow) (convs : List PartnerConversionRow)
    (j : Nat) (hj : j < convs.length) :
    readU32 (serializePartnerRow r convs) (5 + j * 20) =
        (convs.get ⟨j, hj⟩).purchaseTimestamp % 2 ^ 32 ∧
      readU32 (serializePartnerRow r convs) (9 + j * 20) =
        (convs.get ⟨j, hj⟩).thresholdTimestamp % 2 ^ 32 ∧
      readU32 (serializePartnerRow r convs) (13 + j * 20) =
        toUnsigned 32 (convs.get ⟨j, hj⟩).purchaseValue ∧
      readU64 (serializePartnerRow r convs) (17 + j * 20) =
        toUnsigned 64 (convs.get ⟨j, hj⟩).purchaseValueSquared := by
  set c := convs.get ⟨j, hj⟩ with hc
  set rest := ((convs.drop (j + 1)).map serializeConversion).flatten with hrest
  set l := serializePartnerRow r convs with hl
  have hdrop5 : l.drop (5 + j * 20) =
      leBytes 4 c.purchaseTimestamp ++
        (leBytes 4 c.thresholdTimestamp ++
          (leBytes 4 (toUnsigned 32 c.purchaseValue) ++
            (leBytes 8 (toUnsigned 64 c.purchaseValueSquared) ++ rest))) := by
    rw [hl, ser_partner_drop r convs j hj, ← hc, ← hrest]
    simp only [serializeConversion, List.append_assoc]
  have hdrop9 : l.drop (9 + j * 20) =
      leBytes 4 c.thresholdTimestamp ++
        (leBytes 4 (toUnsigned 32 c.purchaseValue) ++
          (leBytes 8 (toUnsigned 64 c.purchaseValueSquared) ++ rest)) := by
    have h9 : 9 + j * 20 = (5 + j * 20) + 4 := by ring
    rw [h9, ← List.drop_drop, hdrop5]
    exact List.drop_left' (leBytes_length 4 c.purchaseTimestamp)
  have hdrop13 : l.drop (13 + j * 20) =
      leBytes 4 (toUnsigned 32 c.purchaseValue) ++
        (leBytes 8 (toUnsigned 64 c.purchaseValueSquared) ++ rest) := by
    have h13 : 13 + j * 20 = (9 + j * 20) + 4 := by ring
    rw [h13, ← List.drop_drop, hdrop9]
    exact List.drop_left' (leBytes_length 4 c.thresholdTimestamp)
  have hdrop17 : l.drop (17 + j * 20) =
      leBytes 8 (toUnsigned 64 c.purchaseValueSquared) ++ rest := by
    have h17 : 17 + j * 20 = (13 + j * 20) + 4 := by ring
    rw [h17, ← List.drop_drop, hdrop13]
    exact List.drop_left' (leBytes_length 4 (toUnsigned 32 c.purchaseValue))
  refine ⟨?_, ?_, ?_, ?_⟩
  · rw [readU32_drop, hdrop5, readU32_leBytes]
  · rw [readU32_drop, hdrop9, readU32_leBytes]
  · rw [readU32_drop, hdrop13, readU32_leBytes]
    exact Nat.mod_eq_of_lt (toUnsigned_lt 32 c.purchaseValue)
  · rw [readU64_drop, hdrop17, readU64_leBytes]
    exact Nat.mod_eq_of_lt (toUnsigned_lt 64 c.purchaseValueSquared)

theorem deserializeConv_ser (r : PartnerRow) (convs : List PartnerConversionRow)
    (j : Nat) (hj : j < convs.length) (hwf : (convs.get ⟨j, hj⟩).wf) :
    deserializePartnerConversionRow (serializePartnerRow r convs) j =
      convs.get ⟨j, hj⟩ := by
  obtain ⟨hts, hthr, hpv1, hpv2, hsq1, hsq2⟩ := hwf
  obtain ⟨hr1, hr2, hr3, hr4⟩ := ser_partner_reads r convs j hj
  set c := convs.get ⟨j, hj⟩ with hc
  rw [Nat.mod_eq_of_lt hts] at hr1
  rw [Nat.mod_eq_of_lt hthr] at hr2
  have h32 : toSigned 32 (toUnsigned 32 c.purchaseValue) = c.purchaseValue :=
    toSigned_toUnsigned 32 (by norm_num) c.purchaseValue
      (by norm_num; exact hpv1) (by norm_num; exact hpv2)
  have h64 : toSigned 64 (toUnsigned 64 c.purchaseValueSquared) =
      c.purchaseValueSquared :=
    toSigned_toUnsigned 64 (by norm_num) c.purchaseValueSquared
      (by norm_num; exact hsq1) (by norm_num; exact hsq2)
  show deserializePartnerConversionRow (serializePartnerRow r convs) j = c
  simp only [deserializePartnerConversionRow, PARTNER_CONVERSION_ROW_SIZE_BYTES,
    hr1, hr2, hr3, hr4, h32, h64]

theorem deserialize_serialize_partnerRow (r : PartnerRow)
    (convs : List PartnerConversionRow) (h : r.wf) :
    deserializePartnerRow (serializePartnerRow r convs) = r := by
  obtain ⟨flag, cohort⟩ := r
  have hb0 : byteAt (serializePartnerRow ⟨flag, cohort⟩ convs) 0 = b2n flag := rfl
  have hflag : bitOf (b2n flag) 0 = flag := by cases flag <;> decide
  have hcoh : readU32 (serializePartnerRow ⟨flag, cohort⟩ convs) 1 = cohort := by
    have hdrop : (serializePartnerRow ⟨flag, cohort⟩ convs).drop 1 =
        leBytes 4 cohort ++ (convs.map serializeConversion).flatten := by
      simp [serializePartnerRow]
    rw [readU32_drop, hdrop, readU32_leBytes]
    exact Nat.mod_eq_of_lt h
  simp only [deserializePartnerRow, hb0, hflag, hcoh]

theorem deserialize_serialize_conversions (r : PartnerRow)
    (convs : List PartnerConversionRow) (hwf : ∀ c ∈ convs, c.wf) :
    deserializePartnerConversions (serializePartnerRow r convs) convs.length
      = convs := by
  apply List.ext_get
  · simp [deserializePartnerConversions]
  · intro n h1 h2
    have hn : n < convs.length := by
      simpa [deserializePartnerConversions] using h1
    have hget : (deserializePartnerConversions
        (serializePartnerRow r convs) convs.length).get ⟨n, h1⟩ =
        deserializePartnerConversionRow (serializePartnerRow r convs) n := by
      simp [deserializePartnerConversions]
    rw [hget]
    exact deserializeConv_ser r convs n hn (hwf _ (List.get_mem convs n hn))

/-- The `anyValidPurchaseTimestamp` accumulation loop of
`preparePlaintextData` (source lines 94–99): `anyValid |= (purchaseTs > 0)`
over the row's padded purchase timestamps. -/
def anyValidPurchaseTs (tss : List Nat) : Bool :=
  tss.foldl (fun acc ts => acc || decide (0 < ts)) false

/-- The `PartnerRow` built by `preparePlaintextData` (source lines
101–103). -/
def mkPartnerRow (cohortId : Nat) (tss : List Nat) : PartnerRow :=
  { anyValidPurchaseTimestamp := anyValidPurchaseTs tss
    cohortGroupId := cohortId }

/-- The `PartnerConversionRow` built by `preparePlaintextData` (source
lines 107–116): the threshold timestamp is the unguarded `uint32_t`
addition `purchaseTimestamp + kPurchaseTimestampThresholdWindow` (hence
reduced modulo `2^32`) when the purchase timestamp is positive and `0`
otherwise; the purchase value is the `(int32_t)` cast of the dataset's
64-bit value; the squared value is kept at 64 bits.  `window` stands for
the configuration constant `kPurchaseTimestampThresholdWindow` (declared in
the header, not in the provided sources), as a 32-bit value. -/
def mkConversionRow (window ts : Nat) (pv pvSq : Int) : PartnerConversionRow :=
  { purchaseTimestamp := ts
    thresholdTimestamp := if 0 < ts then (ts + window) % 2 ^ 32 else 0
    purchaseValue := wrapInt32 pv
    purchaseValueSquared := pvSq }

/-- The `PublisherRow` built by `preparePlaintextData` (source lines
157–174): `breakdownId` is the boolean cast of the padded id,
`isValidOpportunityTimestamp` is `(opportunityTimestamp > 0) & (control |
test)`, `testReach` is `test & (numImpressions > 0)`. -/
def mkPublisherRow (breakdownId : Nat) (control test : Bool) (oppTs : Nat)
    (numImpressions : Int) : PublisherRow :=
  { breakdownId := breakdownId != 0
    controlPopulation := control
    isValidOpportunityTimestamp := decide (0 < oppTs) && (control || test)
    testReach := test && decide (0 < numImpressions)
    opportunityTimestamp := oppTs }

/-- The columns of `inputData_` consumed by the processor.  Unsigned
machine integers are `Nat` bit patterns; `int64_t` columns are `Int`. -/
structure InputData where
  numRows : Nat
  dummyRows : List Bool
  groupIds : List Nat
  purchaseTimestampArrays : List (List Nat)
  purchaseValueArrays : List (List Int)
  purchaseValueSquaredArrays : List (List Int)
  opportunityTimestamps : List Nat
  controlPopulation : List Bool
  testPopulation : List Bool
  numImpressions : List Int
  breakdownIds : List Nat

/-- Modelled from the spec: `common::padArray<T>(xs, size, pad)` (not in
the provided sources) pads a column to the dataset's row capacity with a
fixed pad value (spec §4.4 step 3). -/
def padArray {α : Type} (xs : List α) (n : Nat) (pad : α) : List α :=
  xs.take n ++ List.replicate (n - xs.length) pad

/-- Modelled from the spec: `common::padNestedArrays<T>` (not in the
provided sources) pads the outer array to the row capacity and every inner
array to `numConversionsPerUser`, with pad value `0` (spec §4.4 step 3). -/
def padNestedArrays {α : Type} (xss : List (List α)) (n inner : Nat)
    (pad : α) : List (List α) :=
  (padArray xss n []).map (fun xs => padArray xs inner pad)

/-- The assignment loop of `shuffleAndGetUnionMap` (source lines 35–39),
iterating over the images `p = randomPermutation[i]` in order of `i`:
`unionMap[p] = dummyRows[p] ? -1 : nonDummyRows++`. -/
def unionMapLoop (dummyRows : List Bool) :
    List Nat → List Int → Nat → List Int
  | [], m, _ => m
  | p :: rest, m, c =>
    if dummyRows.getD p false then
      unionMapLoop dummyRows rest (m.set p (-1)) c
    else
      unionMapLoop dummyRows rest (m.set p (c : Int)) (c + 1)

/-- Function `shuffleAndGetUnionMap` (source lines 25–40), parametrized by the
permutation returned by `secureRandomPermutation`: a vector of
`unionSize = dummyRows.length` entries, each either `-1` (dummy row) or
the next sequential non-dummy counter, indexed through the permutation. -/
def shuffleAndGetUnionMap (dummyRows : List Bool) (perm : List Nat) :
    List Int :=
  unionMapLoop dummyRows perm (List.replicate dummyRows.length 0) 0

/-- The reverse-map loop of `preparePlaintextData` (source lines 59–67):
for each `i`, if `unionMap[i] >= 0` then `reverseUnionMap[unionMap[i]] = i`
and `inputSize = max(inputSize, unionMap[i])`. -/
def revMapLoop : List Int → Nat → List Nat → Nat → List Nat × Nat
  | [], _, rev, sz => (rev, sz)
  | e :: rest, i, rev, sz =>
    if 0 ≤ e then revMapLoop rest (i + 1) (rev.set e.toNat i) (max sz e.toNat)
    else revMapLoop rest (i + 1) rev sz

/-- Semantics of `std::vector::resize`: shrinking keeps a prefix, growing appends
value-initialized (zero) elements. -/
def listResize {α : Type} (l : List α) (n : Nat) (dflt : α) : List α :=
  l.take n ++ List.replicate (n - l.length) dflt

/-- Source lines 57–69: build `reverseUnionMap` (initialized to
`getNumRows()` zeros), then `inputSize++` and
`reverseUnionMap.resize(inputSize)`.  Returns the resized reverse map and
`inputSize`. -/
def prepareIndices (unionMap : List Int) (n : Nat) : List Nat × Nat :=
  let p := revMapLoop unionMap 0 (List.replicate n 0) 0
  (listResize p.1 (p.2 + 1) 0, p.2 + 1)

/-- The partner branch of `preparePlaintextData` (source lines 72–147):
pad the value columns, then for each compacted position `i` build the
partner row and its conversion rows from original row
`reverseUnionMap[i]` and serialize them. -/
def preparePlaintextDataPartner (d : InputData)
    (numConversionsPerUser window : Nat) (unionMap : List Int) :
    List (List Nat) :=
  let unionSize := d.numRows
  let pr := prepareIndices unionMap unionSize
  let rev := pr.1
  let inputSize := pr.2
  let cohortIdsPadded := padArray d.groupIds unionSize 0
  let purchaseTimestampsPadded :=
    padNestedArrays d.purchaseTimestampArrays unionSize numConversionsPerUser 0
  let purchaseValuesPadded :=
    padNestedArrays d.purchaseValueArrays unionSize numConversionsPerUser 0
  let purchaseValuesSquaredPadded :=
    padNestedArrays d.purchaseValueSquaredArrays unionSize
      numConversionsPerUser 0
  (List.range inputSize).map (fun i =>
    let inputIndex := rev.getD i 0
    let tss := purchaseTimestampsPadded.getD inputIndex []
    let partnerRow := mkPartnerRow (cohortIdsPadded.getD inputIndex 0) tss
    let rowConversions := (List.range numConversionsPerUser).map (fun j =>
      mkConversionRow window (tss.getD j 0)
        ((purchaseValuesPadded.getD inputIndex []).getD j 0)
        ((purchaseValuesSquaredPadded.getD inputIndex []).getD j 0))
    serializePartnerRow partnerRow rowConversions)

/-- The publisher branch of `preparePlaintextData` (source lines 148–190). -/
def preparePlaintextDataPublisher (d : InputData) (unionMap : List Int) :
    List (List Nat) :=
  let unionSize := d.numRows
  let pr := prepareIndices unionMap unionSize
  let rev := pr.1
  let inputSize := pr.2
  let opportunityTimestampsPadded :=
    padArray d.opportunityTimestamps unionSize 0
  let controlPopulationPadded := padArray d.controlPopulation unionSize false
  let testPopulationPadded := padArray d.testPopulation unionSize false
  let numImpressionsPadded := padArray d.numImpressions unionSize 0
  let breakdownIdPadded := padArray d.breakdownIds unionSize 0
  (List.range inputSize).map (fun i =>
    let inputIndex := rev.getD i 0
    serializePublisherRow
      (mkPublisherRow (breakdownIdPadded.getD inputIndex 0)
        (controlPopulationPadded.getD inputIndex false)
        (testPopulationPadded.getD inputIndex false)
        (opportunityTimestampsPadded.getD inputIndex 0)
        (numImpressionsPadded.getD inputIndex 0)))

/-- Field `myRole_` of the processor. -/
inductive Role
  | publisher
  | partner
deriving DecidableEq

/-- Function `preparePlaintextData` (source lines 50–192), dispatching on
`myRole_`. -/
def preparePlaintextData (role : Role) (d : InputData)
    (numConversionsPerUser window : Nat) (unionMap : List Int) :
    List (List Nat) :=
  match role with
  | Role.partner =>
    preparePlaintextDataPartner d numConversionsPerUser window unionMap
  | Role.publisher => preparePlaintextDataPublisher d unionMap

/-- The `transform_reduce` of `compactData` (source lines 256–261):
`Σ (ele == -1 ? 0 : 1)` over the intersection map, on machine ints. -/
def expectedIntersectionSize (m : List Int) : Int :=
  m.foldl (fun acc e => acc + (if e = -1 then 0 else 1)) 0

/-- The publisher-mismatch message of `compactData` (source lines
263–268). -/
def publisherMismatchMsg (expected : Int) (actual : Nat) : String :=
  "Publisher rows do not match up expected intersection size. Expected " ++
    toString expected ++ " but got " ++ toString actual ++ " rows."

/-- The partner-mismatch message of `compactData` (source lines 270–275). -/
def partnerMismatchMsg (expected : Int) (actual : Nat) : String :=
  "Partner rows do not match up expected intersection size. Expected " ++
    toString expected ++ " but got " ++ toString actual ++ " rows."

/-- Observable effect of one `compactData` run (source lines 194–286): the
arguments handed to the data processor and the validated result.  The
batch sizes of the share buffers returned by `processMyData` /
`processPeersData`, and the peer's exchanged row count, are parameters
because the data processor and the sharing channel are external
collaborators. -/
structure CompactDataTrace where
  myDataPlaintextArg : List (List Nat)
  myDataOutputSizeArg : Nat
  peersDataRowCountArg : Nat
  peersDataIntersectionMapArg : List Int
  peersDataRowWidthArg : Nat
  result : Except String (Nat × Nat)

/-- Function `compactData` (source lines 194–286).  Both roles call
`processMyData(plaintextData, intersectionMap.size())` and
`processPeersData(peerRowCount, intersectionMap, width)` with the
role-appropriate byte width; afterwards the expected intersection size is
compared against both parties' batch sizes, publisher first, and a
mismatch throws; otherwise the pair of share buffers is returned. -/
def compactData (role : Role) (intersectionMap : List Int)
    (plaintextData : List (List Nat)) (numConversionsPerUser : Nat)
    (peerRows : Nat) (publisherBatchSize partnerBatchSize : Nat) :
    CompactDataTrace :=
  let peersWidth :=
    match role with
    | Role.publisher =>
      PARTNER_CONVERSION_ROW_SIZE_BYTES * numConversionsPerUser +
        PARTNER_ROW_SIZE_BYTES
    | Role.partner => PUBLISHER_ROW_BYTES
  let expected := expectedIntersectionSize intersectionMap
  let result : Except String (Nat × Nat) :=
    if expected ≠ (publisherBatchSize : Int) then
      Except.error (publisherMismatchMsg expected publisherBatchSize)
    else if expected ≠ (partnerBatchSize : Int) then
      Except.error (partnerMismatchMsg expected partnerBatchSize)
    else
      Except.ok (publisherBatchSize, partnerBatchSize)
  { myDataPlaintextArg := plaintextData
    myDataOutputSizeArg := intersectionMap.length
    peersDataRowCountArg := peerRows
    peersDataIntersectionMapArg := intersectionMap
    peersDataRowWidthArg := peersWidth
    result := result }

theorem unionMapLoop_length (d : List Bool) :
    ∀ (perm : List Nat) (m : List Int) (c : Nat),
      (unionMapLoop d perm m c).length = m.length := by
  intro perm
  induction perm with
  | nil => intro m c; rfl
  | cons p rest ih =>
    intro m c
    simp only [unionMapLoop]
    split
    · rw [ih]; exact List.length_set m p (-1)
    · rw [ih]; exact List.length_set m p _

theorem unionMapLoop_not_mem (d : List Bool) :
    ∀ (perm : List Nat) (m : List Int) (c : Nat) (q : Nat), q ∉ perm →
      (unionMapLoop d perm m c)[q]? = m[q]? := by
  intro perm
  induction perm with
  | nil => intro m c q _; rfl
  | cons p rest ih =>
    intro m c q hq
    have hqp : p ≠ q := fun h => hq (h ▸ List.mem_cons_self p rest)
    have hqrest : q ∉ rest := fun h => hq (List.mem_cons_of_mem p h)
    simp only [unionMapLoop]
    split
    · rw [ih _ _ _ hqrest, List.getElem?_set_ne hqp]
    · rw [ih _ _ _ hqrest, List.getElem?_set_ne hqp]

theorem unionMapLoop_dummy (d : List Bool) :
    ∀ (perm : List Nat) (m : List Int) (c : Nat) (p : Nat),
      perm.Nodup → (∀ q ∈ perm, q < m.length) → p ∈ perm →
      d.getD p false = true →
      (unionMapLoop d perm m c)[p]? = some (-1) := by
  intro perm
  induction perm with
  | nil => intro m c p _ _ hmem _; exact absurd hmem (List.not_mem_nil p)
  | cons a rest ih =>
    intro m c p hnd hlt hmem hdum
    have hand : a ∉ rest ∧ rest.Nodup := List.nodup_cons.mp hnd
    rcases List.mem_cons.mp hmem with rfl | hrest
    · simp only [unionMapLoop, hdum, if_pos]
      rw [unionMapLoop_not_mem d rest _ c p hand.1]
      exact List.getElem?_set_self (hlt p (List.mem_cons_self p rest))
    · simp only [unionMapLoop]
      split
      · exact ih _ c p hand.2
          (fun q hq => by rw [List.length_set]; exact hlt q (List.mem_cons_of_mem a hq))
          hrest hdum
      · exact ih _ (c + 1) p hand.2
          (fun q hq => by rw [List.length_set]; exact hlt q (List.mem_cons_of_mem a hq))
          hrest hdum

theorem unionMapLoop_rank (d : List Bool) :
    ∀ (perm : List Nat) (m : List Int) (c : Nat),
      perm.Nodup → (∀ q ∈ perm, q < m.length) →
      ∀ (i p : Nat),
        (perm.filter (fun q => !(d.getD q false)))[i]? = some p →
        (unionMapLoop d perm m c)[p]? = some ((c + i : Nat) : Int) := by
  intro perm
  induction perm with
  | nil =>
    intro m c _ _ i p hget
    simp at hget
  | cons a rest ih =>
    intro m c hnd hlt i p hget
    have hand : a ∉ rest ∧ rest.Nodup := List.nodup_cons.mp hnd
    have hlt' : ∀ (x : Int), ∀ q ∈ rest, q < (m.set a x).length := by
      intro x q hq
      rw [List.length_set]
      exact hlt q (List.mem_cons_of_mem a hq)
    by_cases hda : d.getD a false = true
    · rw [List.filter_cons_of_neg (by rw [hda]; decide)] at hget
      simp only [unionMapLoop, hda, if_pos]
      exact ih _ c hand.2 (hlt' (-1)) i p hget
    · have hfalse : d.getD a false = false := by
        cases h : d.getD a false
        · rfl
        · exact absurd h hda
      rw [List.filter_cons_of_pos (by rw [hfalse]; decide)] at hget
      simp only [unionMapLoop]
      rw [if_neg hda]
      cases i with
      | zero =>
        have hpa : a = p := by simpa using hget
        subst hpa
        rw [unionMapLoop_not_mem d rest _ (c + 1) a hand.1]
        rw [List.getElem?_set_self (hlt a (List.mem_cons_self a rest))]
        norm_num
      | succ i' =>
        simp only [List.getElem?_cons_succ] at hget
        have := ih _ (c + 1) hand.2 (hlt' ((c : Nat) : Int)) i' p hget
        rw [this]
        congr 1
        push_cast
        ring

theorem countP_range_getD {α : Type} (pred : α → Bool) (dflt : α) :
    ∀ (l : List α),
      (List.range l.length).countP (fun i => pred (l.getD i dflt)) =
        l.countP pred := by
  intro l
  induction l with
  | nil => simp
  | cons a l ih =>
    have hlen : (a :: l).length = l.length + 1 := rfl
    rw [hlen, List.range_succ_eq_map, List.countP_cons, List.countP_map,
      List.countP_cons]
    have hcomp :
        ((fun i => pred ((a :: l).getD i dflt)) ∘ Nat.succ) =
          (fun i => pred (l.getD i dflt)) := by
      funext i
      simp [Function.comp, List.getD_cons_succ]
    rw [hcomp, ih]
    simp [List.getD_cons_zero]

theorem countP_range_not_getD (l : List Bool) :
    (List.range l.length).countP (fun i => !(l.getD i false)) =
      l.countP (fun b => !b) :=
  countP_range_getD (fun b => !b) false l

/-- C2: for every row count `n`, every vector of `n` per-row dummy flags
with `d` rows flagged, and every permutation of `{0,…,n-1}`, the map
returned by `shuffleAndGetUnionMap` has length `n`, maps every dummy row's
position to `-1`, and its non-sentinel entries are pairwise distinct and
form exactly the set `{0,…,n-d-1}`. -/
theorem shuffleAndGetUnionMap_compaction (dummyRows : List Bool)
    (perm : List Nat) (hperm : perm.Perm (List.range dummyRows.length)) :
    (shuffleAndGetUnionMap dummyRows perm).length = dummyRows.length ∧
    (∀ p, p < dummyRows.length → dummyRows.getD p false = true →
      (shuffleAndGetUnionMap dummyRows perm).getD p 0 = -1) ∧
    (∀ p q, p < dummyRows.length → q < dummyRows.length → p ≠ q →
      (shuffleAndGetUnionMap dummyRows perm).getD p 0 ≠ -1 →
      (shuffleAndGetUnionMap dummyRows perm).getD q 0 ≠ -1 →
      (shuffleAndGetUnionMap dummyRows perm).getD p 0 ≠
        (shuffleAndGetUnionMap dummyRows perm).getD q 0) ∧
    (∀ v : Int,
      (∃ p, p < dummyRows.length ∧
          (shuffleAndGetUnionMap dummyRows perm).getD p 0 = v ∧ v ≠ -1) ↔
        (∃ i : Nat, i < dummyRows.length - dummyRows.countP id ∧
          v = (i : Int))) := by
  set n := dummyRows.length with hn
  set r := shuffleAndGetUnionMap dummyRows perm with hr
  have hnodup : perm.Nodup := (hperm.nodup_iff).mpr (List.nodup_range n)
  have hmem : ∀ q : Nat, q ∈ perm ↔ q < n := by
    intro q
    rw [hperm.mem_iff, List.mem_range]
  have hbound : ∀ q ∈ perm, q < (List.replicate n (0 : Int)).length := by
    intro q hq
    rw [List.length_replicate]
    exact (hmem q).mp hq
  have hlen : r.length = n := by
    rw [hr, shuffleAndGetUnionMap, unionMapLoop_length, List.length_replicate]
  have hdummy : ∀ p, p < n → dummyRows.getD p false = true →
      r.getD p 0 = -1 := by
    intro p hp hd
    have hloop := unionMapLoop_dummy dummyRows perm
      (List.replicate n (0 : Int)) 0 p hnodup hbound ((hmem p).mpr hp) hd
    rw [List.getD_eq_getElem?_getD, hr, shuffleAndGetUnionMap, hloop]
    rfl
  set nd := perm.filter (fun q => !(dummyRows.getD q false)) with hnd
  have hk : nd.length = n - dummyRows.countP id := by
    rw [hnd, ← List.countP_eq_length_filter,
      hperm.countP_eq (fun q => !(dummyRows.getD q false)), hn,
      countP_range_not_getD]
    have hsum := List.length_eq_countP_add_countP (id : Bool → Bool) dummyRows
    have hcompl : dummyRows.countP (fun a => decide ¬(id a = true)) =
        dummyRows.countP (fun b => !b) := by
      congr 1
      funext b
      cases b <;> rfl
    rw [hcompl] at hsum
    omega
  have hnondummy : ∀ p, p < n → dummyRows.getD p false = false →
      ∃ i, i < nd.length ∧ nd[i]? = some p ∧ r.getD p 0 = (i : Int) := by
    intro p hp hd
    have hpmem : p ∈ nd := by
      rw [hnd, List.mem_filter]
      exact ⟨(hmem p).mpr hp, by rw [hd]; rfl⟩
    obtain ⟨i, hi⟩ := List.mem_iff_getElem?.mp hpmem
    have hrank := unionMapLoop_rank dummyRows perm
      (List.replicate n (0 : Int)) 0 hnodup hbound i p (by rw [← hnd]; exact hi)
    have hilen : i < nd.length := by
      obtain ⟨h, _⟩ := List.getElem?_eq_some.mp hi
      exact h
    refine ⟨i, hilen, hi, ?_⟩
    rw [List.getD_eq_getElem?_getD, hr, shuffleAndGetUnionMap, hrank]
    norm_num
  refine ⟨hlen, hdummy, ?_, ?_⟩
  · intro p q hp hq hpq hvp hvq
    have hdp : dummyRows.getD p false = false := by
      cases h : dummyRows.getD p false
      · rfl
      · exact absurd (hdummy p hp h) hvp
    have hdq : dummyRows.getD q false = false := by
      cases h : dummyRows.getD q false
      · rfl
      · exact absurd (hdummy q hq h) hvq
    obtain ⟨i, _, hind, hrp⟩ := hnondummy p hp hdp
    obtain ⟨j, _, hjnd, hrq⟩ := hnondummy q hq hdq
    intro hcontra
    rw [hrp, hrq] at hcontra
    have hij : i = j := by exact_mod_cast hcontra
    subst hij
    rw [hind] at hjnd
    exact hpq (Option.some.inj hjnd)
  · intro v
    constructor
    · rintro ⟨p, hp, hv, hvne⟩
      have hdp : dummyRows.getD p false = false := by
        cases h : dummyRows.getD p false
        · rfl
        · exfalso
          apply hvne
          rw [← hv]
          exact hdummy p hp h
      obtain ⟨i, hik, _, hrp⟩ := hnondummy p hp hdp
      refine ⟨i, by rw [← hk]; exact hik, ?_⟩
      rw [← hv, hrp]
    · rintro ⟨i, hik, rfl⟩
      have hik' : i < nd.length := by rw [hk]; exact hik
      obtain ⟨p, hgi⟩ : ∃ p, nd[i]? = some p :=
        ⟨nd.get ⟨i, hik'⟩, by rw [List.getElem?_eq_getElem hik']; rfl⟩
      have hpmem : p ∈ nd := List.mem_iff_getElem?.mpr ⟨i, hgi⟩
      have hpmem' : p ∈ List.filter (fun q => !dummyRows.getD q false) perm := by
        rw [← hnd]
        exact hpmem
      have hpperm : p ∈ perm := (List.mem_filter.mp hpmem').1
      have hplt : p < n := (hmem p).mp hpperm
      have hrank := unionMapLoop_rank dummyRows perm
        (List.replicate n (0 : Int)) 0 hnodup hbound i p
        (by rw [← hnd]; exact hgi)
      refine ⟨p, hplt, ?_, by omega⟩
      rw [List.getD_eq_getElem?_getD, hr, shuffleAndGetUnionMap, hrank]
      norm_num

theorem foldl_or_any (l : List Nat) :
    ∀ b : Bool, l.foldl (fun acc ts => acc || decide (0 < ts)) b =
      (b || l.any (fun ts => decide (0 < ts))) := by
  induction l with
  | nil => intro b; simp
  | cons a l ih =>
    intro b
    rw [List.foldl_cons, ih, List.any_cons, Bool.or_assoc]

theorem anyValidPurchaseTs_iff (tss : List Nat) :
    anyValidPurchaseTs tss = true ↔ ∃ ts ∈ tss, 0 < ts := by
  rw [anyValidPurchaseTs, foldl_or_any]
  simp [List.any_eq_true]

theorem wrapInt32_spec (v : Int) :
    (2 ^ 32 : Int) ∣ (v - wrapInt32 v) ∧
      -(2 ^ 31) ≤ wrapInt32 v ∧ wrapInt32 v < 2 ^ 31 := by
  have hnn : (0 : Int) ≤ v % 2 ^ 32 := Int.emod_nonneg v (by norm_num)
  have hcast : ((toUnsigned 32 v : Nat) : Int) = v % 2 ^ 32 := by
    rw [toUnsigned, Int.toNat_of_nonneg hnn]
  have hlt32 : ((toUnsigned 32 v : Nat) : Int) < 2 ^ 32 := by
    rw [hcast]
    exact Int.emod_lt_of_pos v (by norm_num)
  have hdiv : v - v % 2 ^ 32 = 2 ^ 32 * (v / 2 ^ 32) := by
    have := Int.ediv_add_emod v (2 ^ 32)
    linarith
  rw [wrapInt32, toSigned]
  by_cases hb : toUnsigned 32 v < 2 ^ (32 - 1)
  · rw [if_pos hb]
    have hb' : ((toUnsigned 32 v : Nat) : Int) < 2 ^ 31 := by
      have : ((toUnsigned 32 v : Nat) : Int) < ((2 ^ (32 - 1) : Nat) : Int) := by
        exact_mod_cast hb
      calc ((toUnsigned 32 v : Nat) : Int) < ((2 ^ (32 - 1) : Nat) : Int) := this
        _ = 2 ^ 31 := by norm_num
    refine ⟨⟨v / 2 ^ 32, ?_⟩, ?_, hb'⟩
    · rw [hcast]
      linarith
    · have : (0 : Int) ≤ ((toUnsigned 32 v : Nat) : Int) := Int.natCast_nonneg _
      linarith
  · rw [if_neg hb]
    have hb' : (2 ^ 31 : Int) ≤ ((toUnsigned 32 v : Nat) : Int) := by
      have : ((2 ^ (32 - 1) : Nat) : Int) ≤ ((toUnsigned 32 v : Nat) : Int) := by
        exact_mod_cast Nat.le_of_not_lt hb
      calc (2 ^ 31 : Int) = ((2 ^ (32 - 1) : Nat) : Int) := by norm_num
        _ ≤ _ := this
    refine ⟨⟨v / 2 ^ 32 + 1, ?_⟩, ?_, ?_⟩
    · rw [hcast]
      have hstep : v - (v % 2 ^ 32 - 2 ^ 32) = 2 ^ 32 * (v / 2 ^ 32) + 2 ^ 32 := by
        linarith
      rw [hstep]
      ring
    · linarith
    · linarith

/-- C1: for every role and every `numConversionsPerUser ≥ 0`, decoding the
byte buffer produced by the encoding of a row (via the offset/bit
extraction of `deserializeSecretSharedData`) yields the row again
field-for-field: the four publisher flags and `opportunityTimestamp`, the
partner flag and `cohortGroupId`, and every conversion's four fields. -/
theorem roundTrip_encode_decode (pr : PublisherRow) (par : PartnerRow)
    (convs : List PartnerConversionRow)
    (hpr : pr.wf) (hpar : par.wf) (hconvs : ∀ c ∈ convs, c.wf) :
    deserializePublisherRow (serializePublisherRow pr) = pr ∧
    deserializePartnerRow (serializePartnerRow par convs) = par ∧
    deserializePartnerConversions (serializePartnerRow par convs)
      convs.length = convs :=
  ⟨deserialize_serialize_publisher pr hpr,
   deserialize_serialize_partnerRow par convs hpar,
   deserialize_serialize_conversions par convs hconvs⟩

/-- Witness for C1: the round trip evaluated at a publisher row and at a
partner row with one conversion holding a negative purchase value. -/
theorem roundTrip_encode_decode_witness :
    deserializePublisherRow
        (serializePublisherRow ⟨true, false, true, false, 123456⟩) =
      ⟨true, false, true, false, 123456⟩ ∧
    deserializePartnerRow
        (serializePartnerRow ⟨true, 77⟩ [⟨100, 110, -5, 25⟩]) = ⟨true, 77⟩ ∧
    deserializePartnerConversions
        (serializePartnerRow ⟨true, 77⟩ [⟨100, 110, -5, 25⟩]) 1 =
      [⟨100, 110, -5, 25⟩] :=
  roundTrip_encode_decode ⟨true, false, true, false, 123456⟩ ⟨true, 77⟩
    [⟨100, 110, -5, 25⟩] (by decide) (by decide) (by decide)

/-- C3: for every encoded row, `isValidOpportunityTimestamp` holds iff the
opportunity timestamp is positive and the row is in the control or test
population; `testReach` holds iff the row is in the test population with
positive impressions; `anyValidPurchaseTimestamp` holds iff at least one
of the row's padded purchase timestamps is positive. -/
theorem derivedFields_spec (breakdownId : Nat) (control test : Bool)
    (oppTs : Nat) (numImpressions : Int) (cohortId : Nat) (tss : List Nat) :
    ((mkPublisherRow breakdownId control test oppTs
        numImpressions).isValidOpportunityTimestamp = true ↔
      (0 < oppTs ∧ (control = true ∨ test = true))) ∧
    ((mkPublisherRow breakdownId control test oppTs
        numImpressions).testReach = true ↔
      (test = true ∧ 0 < numImpressions)) ∧
    ((mkPartnerRow cohortId tss).anyValidPurchaseTimestamp = true ↔
      ∃ ts ∈ tss, 0 < ts) := by
  refine ⟨?_, ?_, ?_⟩
  · simp only [mkPublisherRow, Bool.and_eq_true, Bool.or_eq_true,
      decide_eq_true_eq]
  · simp only [mkPublisherRow, Bool.and_eq_true, decide_eq_true_eq]
  · exact anyValidPurchaseTs_iff tss

/-- Witness for C3 at concrete rows: a valid opportunity in the control
population, and a conversion list whose second timestamp is positive. -/
theorem derivedFields_spec_witness :
    (mkPublisherRow 1 true false 100 0).isValidOpportunityTimestamp = true ∧
    (mkPartnerRow 5 [0, 50]).anyValidPurchaseTimestamp = true :=
  ⟨(derivedFields_spec 1 true false 100 0 5 [0, 50]).1.mpr
      ⟨by decide, Or.inl rfl⟩,
   (derivedFields_spec 1 true false 100 0 5 [0, 50]).2.2.mpr
      ⟨50, by decide, by decide⟩⟩

/-- C4: for every conversion slot, the threshold timestamp equals the
unguarded `uint32_t` sum of a positive purchase timestamp and the window
(wrapping modulo `2^32` near the maximum), and `0` when the purchase
timestamp is `0`. -/
theorem thresholdTimestamp_spec (window ts : Nat) (pv pvSq : Int)
    (hts : ts < 2 ^ 32) (hw : window < 2 ^ 32) :
    (mkConversionRow window ts pv pvSq).thresholdTimestamp =
      if ts = 0 then 0
      else if ts + window < 2 ^ 32 then ts + window
      else ts + window - 2 ^ 32 := by
  simp only [mkConversionRow]
  by_cases h0 : ts = 0
  · subst h0
    simp
  · have hpos : 0 < ts := Nat.pos_of_ne_zero h0
    rw [if_pos hpos, if_neg h0]
    by_cases hlt : ts + window < 2 ^ 32
    · rw [if_pos hlt, Nat.mod_eq_of_lt hlt]
    · rw [if_neg hlt]
      omega

/-- Witness for C4 at the wraparound edge: purchase timestamp
`2^32 - 1` with window `10` yields threshold `9`. -/
theorem thresholdTimestamp_spec_witness :
    (mkConversionRow 10 (2 ^ 32 - 1) 0 0).thresholdTimestamp = 9 := by
  have h := thresholdTimestamp_spec 10 (2 ^ 32 - 1) 0 0 (by decide) (by decide)
  rw [h]
  decide

/-- C10 (implicit): the encoded `purchaseValue` is the dataset's 64-bit
value cast to `int32_t` — congruent to it modulo `2^32` and reduced into
the `int32_t` range — while `purchaseValueSquared` keeps the full 64-bit
value. -/
theorem purchaseValue_narrowing (window ts : Nat) (pv pvSq : Int) :
    (2 ^ 32 : Int) ∣
        (pv - (mkConversionRow window ts pv pvSq).purchaseValue) ∧
      -(2 ^ 31) ≤ (mkConversionRow window ts pv pvSq).purchaseValue ∧
      (mkConversionRow window ts pv pvSq).purchaseValue < 2 ^ 31 ∧
      (mkConversionRow window ts pv pvSq).purchaseValueSquared = pvSq := by
  have h := wrapInt32_spec pv
  exact ⟨h.1, h.2.1, h.2.2, rfl⟩

theorem flatten_length_const {α : Type} (s : Nat) :
    ∀ (blocks : List (List α)), (∀ b ∈ blocks, b.length = s) →
      blocks.flatten.length = s * blocks.length := by
  intro blocks
  induction blocks with
  | nil => intro _; simp
  | cons b bs ih =>
    intro h
    simp only [List.flatten_cons, List.length_append, List.length_cons]
    rw [ih (fun x hx => h x (List.mem_cons_of_mem b hx)),
      h b (List.mem_cons_self b bs)]
    ring

theorem byteAt_leBytes (k v b : Nat) (hb : b < k) (rest : List Nat) :
    byteAt (leBytes k v ++ rest) b = v / 2 ^ (8 * b) % 256 := by
  rw [byteAt, List.getD_eq_getElem?_getD, List.getElem?_append]
  rw [if_pos (by rw [leBytes_length]; exact hb)]
  rw [leBytes, List.getElem?_map, List.getElem?_range hb]
  simp [extractByte, Nat.shiftRight_eq_div_pow]

theorem ser_publisher_readU32 (r : PublisherRow) :
    readU32 (serializePublisherRow r) 1 = r.opportunityTimestamp % 2 ^ 32 := by
  have hdrop : (serializePublisherRow r).drop 1 =
      leBytes 4 r.opportunityTimestamp ++ [] := by
    simp [serializePublisherRow]
  rw [readU32_drop, hdrop, readU32_leBytes]

theorem ser_partner_readU32_cohort (r : PartnerRow)
    (convs : List PartnerConversionRow) :
    readU32 (serializePartnerRow r convs) 1 = r.cohortGroupId % 2 ^ 32 := by
  have hdrop : (serializePartnerRow r convs).drop 1 =
      leBytes 4 r.cohortGroupId ++ (convs.map serializeConversion).flatten := by
    simp [serializePartnerRow]
  rw [readU32_drop, hdrop, readU32_leBytes]

/-- C5: every encoded publisher row is the packed flag byte (breakdownId
bit 0, controlPopulation bit 1, isValidOpportunityTimestamp bit 2,
testReach bit 3) followed by the 4 little-endian bytes of
`opportunityTimestamp`; every encoded partner row is the flag byte
(anyValidPurchaseTimestamp bit 0), the 4 little-endian bytes of
`cohortGroupId`, then `numConversionsPerUser` consecutive 20-byte blocks
holding, little-endian, 4 bytes purchase timestamp, 4 bytes threshold
timestamp, 4 bytes purchase value and 8 bytes squared value. -/
theorem encodeLayout_spec (pr : PublisherRow) (par : PartnerRow)
    (convs : List PartnerConversionRow) (hpr : pr.wf) (hpar : par.wf)
    (hconvs : ∀ c ∈ convs, c.wf) :
    (serializePublisherRow pr).length = PUBLISHER_ROW_BYTES ∧
    byteAt (serializePublisherRow pr) 0 =
      b2n pr.breakdownId + 2 * b2n pr.controlPopulation +
        4 * b2n pr.isValidOpportunityTimestamp + 8 * b2n pr.testReach ∧
    (∀ b, b < 4 → byteAt (serializePublisherRow pr) (1 + b) =
      pr.opportunityTimestamp / 2 ^ (8 * b) % 256) ∧
    readU32 (serializePublisherRow pr) 1 = pr.opportunityTimestamp ∧
    (serializePartnerRow par convs).length =
      PARTNER_ROW_SIZE_BYTES +
        PARTNER_CONVERSION_ROW_SIZE_BYTES * convs.length ∧
    byteAt (serializePartnerRow par convs) 0 =
      b2n par.anyValidPurchaseTimestamp ∧
    (∀ b, b < 4 → byteAt (serializePartnerRow par convs) (1 + b) =
      par.cohortGroupId / 2 ^ (8 * b) % 256) ∧
    readU32 (serializePartnerRow par convs) 1 = par.cohortGroupId ∧
    (∀ j, ∀ hj : j < convs.length,
      readU32 (serializePartnerRow par convs)
          (PARTNER_ROW_SIZE_BYTES + j * PARTNER_CONVERSION_ROW_SIZE_BYTES) =
        (convs.get ⟨j, hj⟩).purchaseTimestamp ∧
      readU32 (serializePartnerRow par convs)
          (9 + j * PARTNER_CONVERSION_ROW_SIZE_BYTES) =
        (convs.get ⟨j, hj⟩).thresholdTimestamp ∧
      readU32 (serializePartnerRow par convs)
          (13 + j * PARTNER_CONVERSION_ROW_SIZE_BYTES) =
        toUnsigned 32 (convs.get ⟨j, hj⟩).purchaseValue ∧
      readU64 (serializePartnerRow par convs)
          (17 + j * PARTNER_CONVERSION_ROW_SIZE_BYTES) =
        toUnsigned 64 (convs.get ⟨j, hj⟩).purchaseValueSquared) := by
  have hflatlen : ((convs.map serializeConversion).flatten).length =
      20 * convs.length := by
    rw [flatten_length_const 20 (convs.map serializeConversion)
      (fun b hb => by
        obtain ⟨c, _, rfl⟩ := List.mem_map.mp hb
        exact serializeConversion_length c)]
    rw [List.length_map]
  refine ⟨?_, ?_, ?_, ?_, ?_, ?_, ?_, ?_, ?_⟩
  · simp [serializePublisherRow, leBytes_length, PUBLISHER_ROW_BYTES]
  · obtain ⟨b0, b1, b2, b3, ts⟩ := pr
    obtain ⟨_, _, _, _, hpack⟩ := packedFlags_spec b0 b1 b2 b3
    simpa [serializePublisherRow, byteAt] using hpack
  · intro b hb
    obtain ⟨b0, b1, b2, b3, ts⟩ := pr
    have hcons : serializePublisherRow ⟨b0, b1, b2, b3, ts⟩ =
        (b2n b0 ||| (b2n b1 <<< 1) ||| (b2n b2 <<< 2) ||| (b2n b3 <<< 3)) ::
          (leBytes 4 ts ++ []) := by
      simp [serializePublisherRow]
    rw [hcons, byteAt, Nat.add_comm 1 b, List.getD_cons_succ, ← byteAt,
      byteAt_leBytes 4 ts b hb]
  · rw [ser_publisher_readU32]
    exact Nat.mod_eq_of_lt hpr
  · simp only [serializePartnerRow, List.length_cons, List.length_append,
      leBytes_length, hflatlen, PARTNER_ROW_SIZE_BYTES,
      PARTNER_CONVERSION_ROW_SIZE_BYTES]
    ring
  · rfl
  · intro b hb
    have hcons : serializePartnerRow par convs =
        b2n par.anyValidPurchaseTimestamp ::
          (leBytes 4 par.cohortGroupId ++
            (convs.map serializeConversion).flatten) := rfl
    rw [hcons, byteAt, Nat.add_comm 1 b, List.getD_cons_succ, ← byteAt,
      byteAt_leBytes 4 par.cohortGroupId b hb]
  · rw [ser_partner_readU32_cohort]
    exact Nat.mod_eq_of_lt hpar
  · intro j hj
    obtain ⟨hr1, hr2, hr3, hr4⟩ := ser_partner_reads par convs j hj
    obtain ⟨hts, hthr, _, _, _, _⟩ := hconvs _ (List.get_mem convs j hj)
    rw [Nat.mod_eq_of_lt hts] at hr1
    rw [Nat.mod_eq_of_lt hthr] at hr2
    exact ⟨hr1, hr2, hr3, hr4⟩

/-- Witness for C5 at a concrete partner row: total length `25` for one
conversion and the cohort id read back from bytes 1–4. -/
theorem encodeLayout_spec_witness :
    (serializePartnerRow ⟨true, 258⟩ [⟨100, 110, -5, 25⟩]).length = 25 ∧
    readU32 (serializePartnerRow ⟨true, 258⟩ [⟨100, 110, -5, 25⟩]) 1 = 258 := by
  have h := encodeLayout_spec ⟨false, true, false, true, 7⟩ ⟨true, 258⟩
    [⟨100, 110, -5, 25⟩] (by decide) (by decide) (by decide)
  exact ⟨h.2.2.2.2.1, h.2.2.2.2.2.2.2.1⟩

/-- Witness for C2: a concrete permutation of three rows with the middle
row flagged as dummy. -/
theorem shuffleAndGetUnionMap_compaction_witness :
    ([2, 0, 1] : List Nat).Perm (List.range 3) ∧
      (shuffleAndGetUnionMap [false, true, false] [2, 0, 1]).length = 3 :=
  ⟨by decide,
   (shuffleAndGetUnionMap_compaction [false, true, false] [2, 0, 1]
     (by decide)).1⟩

theorem expectedIntersectionSize_foldl (m : List Int) :
    ∀ a : Int, m.foldl (fun acc e => acc + (if e = -1 then 0 else 1)) a =
      a + (m.countP (fun e => e != -1) : Int) := by
  induction m with
  | nil => intro a; simp
  | cons e rest ih =>
    intro a
    rw [List.foldl_cons, ih, List.countP_cons]
    by_cases h : e = -1
    · simp [h]
    · have hbne : (e != -1) = true := by simp [h]
      rw [if_neg h, if_pos hbne]
      push_cast
      ring

theorem expectedIntersectionSize_eq_countP (m : List Int) :
    expectedIntersectionSize m = (m.countP (fun e => e != -1) : Int) := by
  rw [expectedIntersectionSize, expectedIntersectionSize_foldl]
  ring

/-- C6: `compactData` computes the expected aligned size as the count of
non-`-1` entries of the intersection map; a publisher-side batch-size
mismatch raises the publisher message (checked first), a partner-side
mismatch the partner message, each naming expected and actual counts; when
both batch sizes match, the pair of share buffers is returned. -/
theorem compactData_validation (role : Role) (intersectionMap : List Int)
    (plaintextData : List (List Nat)) (numConv peerRows : Nat)
    (pubBatch parBatch : Nat) :
    expectedIntersectionSize intersectionMap =
        (intersectionMap.countP (fun e => e != -1) : Int) ∧
      ((compactData role intersectionMap plaintextData numConv peerRows
          pubBatch parBatch).result = Except.ok (pubBatch, parBatch) ↔
        (expectedIntersectionSize intersectionMap = (pubBatch : Int) ∧
          expectedIntersectionSize intersectionMap = (parBatch : Int))) ∧
      (expectedIntersectionSize intersectionMap ≠ (pubBatch : Int) →
        (compactData role intersectionMap plaintextData numConv peerRows
            pubBatch parBatch).result =
          Except.error (publisherMismatchMsg
            (expectedIntersectionSize intersectionMap) pubBatch)) ∧
      (expectedIntersectionSize intersectionMap = (pubBatch : Int) →
        expectedIntersectionSize intersectionMap ≠ (parBatch : Int) →
        (compactData role intersectionMap plaintextData numConv peerRows
            pubBatch parBatch).result =
          Except.error (partnerMismatchMsg
            (expectedIntersectionSize intersectionMap) parBatch)) := by
  refine ⟨expectedIntersectionSize_eq_countP intersectionMap, ?_, ?_, ?_⟩
  · constructor
    · intro hok
      by_cases h1 : expectedIntersectionSize intersectionMap = (pubBatch : Int)
      · by_cases h2 : expectedIntersectionSize intersectionMap = (parBatch : Int)
        · exact ⟨h1, h2⟩
        · exfalso
          simp only [compactData, if_neg (not_not_intro h1), if_pos h2] at hok
          cases hok
      · exfalso
        simp only [compactData, if_pos h1] at hok
        cases hok
    · rintro ⟨h1, h2⟩
      simp only [compactData, if_neg (not_not_intro h1),
        if_neg (not_not_intro h2)]
  · intro h1
    simp only [compactData, if_pos h1]
  · intro h1 h2
    simp only [compactData, if_neg (not_not_intro h1), if_pos h2]

/-- Witness for C6: with intersection map `[1, -1, 2]` and both batch
sizes equal to the non-sentinel count `2`, the run returns the pair. -/
theorem compactData_validation_witness :
    (compactData Role.publisher [1, -1, 2] [] 1 0 2 2).result =
      Except.ok (2, 2) :=
  (compactData_validation Role.publisher [1, -1, 2] [] 1 0 2 2).2.1.mpr
    ⟨by decide, by decide⟩

/-- C7 counterexample: with intersection map `[-1]` the expected-output
size handed to `processMyData` is the map's total length `1`, while the
count of non-`-1` entries is `0`. -/
theorem processMyDataArg_counterexample :
    (compactData Role.publisher [-1] [] 1 0 0 0).myDataOutputSizeArg = 1 ∧
      expectedIntersectionSize [-1] = 0 ∧
      ((compactData Role.publisher [-1] [] 1 0 0
          0).myDataOutputSizeArg : Int) ≠ expectedIntersectionSize [-1] :=
  ⟨rfl, by decide, by decide⟩

/-- C7 amended: the expected-output-size argument `compactData` passes to
`processMyData` is the intersection map's total length, for either role;
it coincides with the count of non-`-1` entries exactly when the map has
no `-1` entry. -/
theorem processMyDataArg_spec (role : Role) (intersectionMap : List Int)
    (plaintextData : List (List Nat)) (numConv peerRows : Nat)
    (pubBatch parBatch : Nat) :
    (compactData role intersectionMap plaintextData numConv peerRows
        pubBatch parBatch).myDataOutputSizeArg = intersectionMap.length ∧
      (((compactData role intersectionMap plaintextData numConv peerRows
            pubBatch parBatch).myDataOutputSizeArg : Int) =
          expectedIntersectionSize intersectionMap ↔
        ∀ e ∈ intersectionMap, e ≠ -1) := by
  refine ⟨rfl, ?_⟩
  have harg : (compactData role intersectionMap plaintextData numConv
      peerRows pubBatch parBatch).myDataOutputSizeArg =
      intersectionMap.length := rfl
  rw [harg, expectedIntersectionSize_eq_countP]
  rw [Int.natCast_inj]
  constructor
  · intro h
    have := List.countP_eq_length.mp h.symm
    intro e he
    have hbe := this e he
    simpa using hbe
  · intro h
    have : ∀ e ∈ intersectionMap, (e != -1) = true := by
      intro e he
      simpa using h e he
    rw [List.countP_eq_length.mpr this]

/-- Witness for C7's amended statement: a map without `-1` entries, where
the passed argument equals the non-sentinel count. -/
theorem processMyDataArg_spec_witness :
    ((compactData Role.partner [0, 3] [] 1 0 0 0).myDataOutputSizeArg : Int) =
      expectedIntersectionSize [0, 3] :=
  (processMyDataArg_spec Role.partner [0, 3] [] 1 0 0 0).2.mpr (by decide)

theorem revMapLoop_sz_ge (um : List Int) :
    ∀ (i : Nat) (rev : List Nat) (sz : Nat),
      sz ≤ (revMapLoop um i rev sz).2 ∧
        ∀ e ∈ um, 0 ≤ e → e.toNat ≤ (revMapLoop um i rev sz).2 := by
  induction um with
  | nil =>
    intro i rev sz
    exact ⟨le_refl _, by simp⟩
  | cons e rest ih =>
    intro i rev sz
    simp only [revMapLoop]
    split
    · constructor
      · calc sz ≤ max sz e.toNat := le_max_left _ _
          _ ≤ _ := (ih (i + 1) _ (max sz e.toNat)).1
      · intro x hx hxnn
        rcases List.mem_cons.mp hx with rfl | hrest
        · calc x.toNat ≤ max sz x.toNat := le_max_right _ _
            _ ≤ _ := (ih (i + 1) _ _).1
        · exact (ih (i + 1) _ _).2 x hrest hxnn
    · rename_i hneg
      constructor
      · exact (ih _ _ _).1
      · intro x hx hxnn
        rcases List.mem_cons.mp hx with rfl | hrest
        · exact absurd hxnn hneg
        · exact (ih _ _ _).2 x hrest hxnn

theorem revMapLoop_sz_le (um : List Int) :
    ∀ (i : Nat) (rev : List Nat) (sz B : Nat),
      sz ≤ B → (∀ e ∈ um, 0 ≤ e → e.toNat ≤ B) →
      (revMapLoop um i rev sz).2 ≤ B := by
  induction um with
  | nil =>
    intro i rev sz B h _
    exact h
  | cons e rest ih =>
    intro i rev sz B hsz hall
    simp only [revMapLoop]
    split
    · rename_i hpos
      apply ih
      · exact max_le hsz (hall e (List.mem_cons_self e rest) hpos)
      · intro x hx hxnn
        exact hall x (List.mem_cons_of_mem e hx) hxnn
    · apply ih
      · exact hsz
      · intro x hx hxnn
        exact hall x (List.mem_cons_of_mem e hx) hxnn

theorem preparePlaintextData_length (role : Role) (d : InputData)
    (numConv window : Nat) (unionMap : List Int) :
    (preparePlaintextData role d numConv window unionMap).length =
      (revMapLoop unionMap 0 (List.replicate d.numRows 0) 0).2 + 1 := by
  cases role
  · simp [preparePlaintextData, preparePlaintextDataPublisher, prepareIndices]
  · simp [preparePlaintextData, preparePlaintextDataPartner, prepareIndices]

/-- C8 amended: when the union map's non-sentinel entries form
`{0,…,k-1}` with `k ≥ 1`, `preparePlaintextData` returns exactly `k`
encoded row buffers (for either role); when every entry is the sentinel
(`k = 0`), it returns one buffer rather than zero, because the source
increments `inputSize` from its initial value `0` unconditionally. -/
theorem preparePlaintextData_count (role : Role) (d : InputData)
    (numConv window : Nat) (unionMap : List Int) (k : Nat) (hk : 1 ≤ k)
    (hentries : ∀ e ∈ unionMap, 0 ≤ e → e.toNat < k)
    (hsurj : ∀ i : Nat, i < k → (i : Int) ∈ unionMap) :
    (preparePlaintextData role d numConv window unionMap).length = k := by
  rw [preparePlaintextData_length]
  have hge : k - 1 ≤ (revMapLoop unionMap 0 (List.replicate d.numRows 0) 0).2 := by
    have hmem : ((k - 1 : Nat) : Int) ∈ unionMap := hsurj (k - 1) (by omega)
    have := (revMapLoop_sz_ge unionMap 0 (List.replicate d.numRows 0) 0).2
      ((k - 1 : Nat) : Int) hmem (Int.natCast_nonneg _)
    simpa using this
  have hle : (revMapLoop unionMap 0 (List.replicate d.numRows 0) 0).2 ≤ k - 1 := by
    apply revMapLoop_sz_le
    · omega
    · intro e he henn
      have := hentries e he henn
      omega
  omega

/-- Input dataset for settling C8 concretely: one row, flagged dummy. -/
def oneDummyRowData : InputData :=
  { numRows := 1
    dummyRows := [true]
    groupIds := [0]
    purchaseTimestampArrays := [[0]]
    purchaseValueArrays := [[0]]
    purchaseValueSquaredArrays := [[0]]
    opportunityTimestamps := [0]
    controlPopulation := [false]
    testPopulation := [false]
    numImpressions := [0]
    breakdownIds := [0] }

/-- C8 counterexample: with the all-sentinel union map `[-1]` (so `k = 0`)
the partner branch still produces `1` encoded buffer, not `0`. -/
theorem preparePlaintextData_count_counterexample :
    (preparePlaintextData Role.partner oneDummyRowData 1 10 [-1]).length = 1 ∧
      (preparePlaintextData Role.partner oneDummyRowData 1 10 [-1]).length
        ≠ 0 := by
  constructor
  · decide
  · decide

/-- Witness for C8's amended statement: a single non-dummy row whose union
map is `[0]` (`k = 1`) yields exactly one buffer. -/
theorem preparePlaintextData_count_witness :
    (preparePlaintextData Role.publisher oneDummyRowData 1 10
      [(0 : Int)]).length = 1 :=
  preparePlaintextData_count Role.publisher oneDummyRowData 1 10 [0] 1
    (by decide) (by decide) (by decide)

end PrivateLift
